import Mathlib

/-!
Verification of the Shopify-Domains-Scraper repository.

The repository has three Python pipelines:
* `main.py`   — paginated discovery: fetch pages `range(1, last_page)` of a
  directory, keep element texts ending in `.{zone}`, append to a CSV.
* `main2.py`  — widget probing: for each input domain, fetch it and test the
  body for four fixed `verifypass` marker substrings (case-insensitively);
  records go to a per-run CSV and detections to an incremental sink.
* `script.py` — locale probing: for each input domain, fetch it and run six
  indicator checks; confidence is `min(len(indicators) * 25, 100)`.

Strings are embedded as `List Char` (`Str`) so that every definition is
executable by the kernel.  HTML parsing, regex matching and JSON decoding are
treated as capabilities: their *results* are fields of the page model, while
all substring tests, splits, case folds, arithmetic and control flow are
translated directly from the source.
-/

/-! ## Shared string and iteration helpers -/

/-- Python strings, embedded as lists of characters. -/
abbrev Str := List Char

/-- Python's `needle in hay` substring test. -/
def containsSub (needle hay : Str) : Bool := decide (needle <:+: hay)

/-- Python's `str.lower()` (character-wise, as in the ASCII cases used here). -/
def pyLower (s : Str) : Str := s.map Char.toLower

/-- Python's `str.upper()`. -/
def pyUpper (s : Str) : Str := s.map Char.toUpper

/-- Python's `str.strip()`: drop leading and trailing whitespace. -/
def pystrip (s : Str) : Str :=
  ((s.dropWhile Char.isWhitespace).reverse.dropWhile Char.isWhitespace).reverse

/-- Python's `range(a, b)`. -/
def pyrange (a b : Nat) : List Nat := List.range' a (b - a)

/-- Python's `str.split(sep)` for a non-empty separator, with fuel for
structural recursion (fuel `≥ length` makes the zero-fuel branch unreachable,
since every step consumes at least one character). -/
def pySplitAux (sep : Str) : Nat → Str → Str → List Str
  | _, [], acc => [acc.reverse]
  | 0, l, acc => [acc.reverse ++ l]
  | fuel + 1, c :: cs, acc =>
    if sep ≠ [] ∧ sep <+: (c :: cs) then
      acc.reverse :: pySplitAux sep fuel ((c :: cs).drop sep.length) []
    else
      pySplitAux sep fuel cs (c :: acc)

/-- Python's `str.split(sep)`. -/
def pySplit (sep l : Str) : List Str := pySplitAux sep l.length l []

/-- `check_domain`'s URL normalization, identical in main2.py lines 31-32 and
script.py lines 105-106: the reassignment `domain = f'https://{domain}'` is
guarded by `not domain.startswith('http')`. -/
def normalizeUrl (domain : Str) : Str :=
  if "http".toList <+: domain then domain else "https://".toList ++ domain

/-- Digits of a number, for rendering a status code into a message. -/
def natToStr (n : Nat) : Str := Nat.toDigits 10 n

/-- The batch slicing of both probing mains:
`for i in range(0, total_domains, batch_size): batch = domains[i:i + batch_size]`. -/
def pybatches (batch_size : Nat) (domains : List Str) : List (List Str) :=
  (List.range' 0 ((domains.length + (batch_size - 1)) / batch_size) batch_size).map
    fun i => (domains.drop i).take batch_size

namespace MainPy

/-! ## `main.py` — the paginated discovery pipeline -/

/-- The page numbers for which `fetch` creates one `scrape` task each:
`for page_num in range(1, last_page)` (main.py line 53). -/
def fetch_pages (last_page : Nat) : List Nat := pyrange 1 last_page

/-- The body of `scrape`'s element loop (main.py lines 38-41): for every
element carrying the fixed container class (the parser query is a capability;
`texts` are the candidate elements' `.text` values), keep `link.text.strip()`
iff it ends with `'.' + DOMAIN_ZONE`. -/
def scrape_page (zone : Str) (texts : List Str) : List Str :=
  texts.filterMap fun t =>
    if ('.' :: zone) <:+ pystrip t then some (pystrip t) else none

end MainPy

namespace Main2

/-! ## `main2.py` — the integration-widget probing pipeline -/

/-- The fixed marker list of main2.py lines 49-54. -/
def verifypass_indicators : List Str :=
  ["verifypass.com".toList, "verifypass.js".toList,
   "verifypass-shopify".toList, "data-verifypass".toList]

/-- main2.py line 56: `any(indicator in html_content.lower() for indicator in
verifypass_indicators)`. -/
def has_verifypass (html_content : Str) : Bool :=
  verifypass_indicators.any fun indicator => containsSub indicator (pyLower html_content)

/-- Outcome of `session.get` on one domain: a response, a timeout, or any
other exception — the three paths of `check_domain`'s try/except. -/
inductive Fetched where
  | ok (status : Nat) (body : Str)
  | timeout
  | failure (msg : Str)
deriving DecidableEq

/-- The dict returned by `check_domain` (main2.py). -/
structure CheckResult where
  domain : Str
  valid : Bool
  status : Option Nat
  verifypass : Bool
  error : Option Str
deriving DecidableEq

/-- One row of the incremental verifypass sink (`save_verifypass_domain`). -/
structure SinkRow where
  domain : Str
  status : Nat
deriving DecidableEq

/-- `check_domain` (main2.py lines 28-85): classify the fetch outcome, run the
marker test on a 200 body, and return the result dict together with the rows
appended to the incremental sink (a detection is saved immediately). -/
def check_domain (fetch : Str → Fetched) (domain : Str) : CheckResult × List SinkRow :=
  match fetch (normalizeUrl domain) with
  | .ok st body =>
    if st ≠ 200 then
      (⟨normalizeUrl domain, false, some st, false,
        some ("Invalid status code: ".toList ++ natToStr st)⟩, [])
    else
      (⟨normalizeUrl domain, true, some st, has_verifypass body, none⟩,
        if has_verifypass body then [⟨normalizeUrl domain, st⟩] else [])
  | .timeout => (⟨normalizeUrl domain, false, none, false, some "Timeout".toList⟩, [])
  | .failure e => (⟨normalizeUrl domain, false, none, false, some e⟩, [])

/-- `process_domains` (main2.py lines 87-93): one task per domain of the
batch, gathered in task order; sink rows accumulate as units complete. -/
def process_domains (fetch : Str → Fetched) (domains : List Str) :
    List CheckResult × List SinkRow :=
  ((domains.map (check_domain fetch)).map Prod.fst,
   ((domains.map (check_domain fetch)).map Prod.snd).flatten)

/-- The result accumulation of `main` (main2.py lines 137-145): batches of 50
are processed in order and their results extended onto `results`. -/
def main_results (fetch : Str → Fetched) (domains : List Str) : List CheckResult :=
  ((pybatches 50 domains).map fun batch => (process_domains fetch batch).1).flatten

/-- The rows reaching the incremental verifypass sink over a whole run. -/
def main_sink (fetch : Str → Fetched) (domains : List Str) : List SinkRow :=
  ((pybatches 50 domains).map fun batch => (process_domains fetch batch).2).flatten

/-- Python's `str(True)` / `str(False)`, as written by `csv.writer`. -/
def pyBoolStr (b : Bool) : Str := if b then "True".toList else "False".toList

/-- A `None`-able status as written by `csv.writer` (None becomes empty). -/
def statusField : Option Nat → Str
  | none => []
  | some n => natToStr n

/-- A `None`-able message as written by `csv.writer` (None becomes empty). -/
def errorField : Option Str → Str
  | none => []
  | some s => s

/-- One data row of `save_results` (main2.py lines 111-118). -/
def resultRow (r : CheckResult) : List Str :=
  [r.domain, pyBoolStr r.valid, statusField r.status, pyBoolStr r.verifypass,
   errorField r.error]

/-- A CSV file written in one go: its name and its rows. -/
structure SavedCsv where
  filename : Str
  rows : List (List Str)
deriving DecidableEq

/-- `save_results` (main2.py lines 103-120).  The `output_filename` parameter
is immediately shadowed by a freshly timestamped name (line 105), exactly as
in the source. -/
def save_results (results : List CheckResult) (output_filename : Str) (ts : Str) :
    SavedCsv :=
  let output_filename := "domain_check_results_".toList ++ ts ++ ".csv".toList
  ⟨output_filename,
   (["Domain", "Valid", "Status", "VerifyPass", "Error"].map String.toList) ::
     results.map resultRow⟩

/-- main2.py line 153: `save_results(results, 'domain_check_results.csv')`,
with `ts` the timestamp computed inside `save_results` at save time. -/
def main_saved (fetch : Str → Fetched) (domains : List Str) (ts : Str) : SavedCsv :=
  save_results (main_results fetch domains) "domain_check_results.csv".toList ts

end Main2

namespace ScriptPy

/-! ## `script.py` — the country-locale probing pipeline -/

/-- A parsed `<meta>` element: `meta.get('property')`, `meta.get('name')` and
`meta.get('content', '')` (the HTML parser itself is a capability; `none`
models an absent attribute). -/
structure MetaTag where
  property : Option Str
  name : Option Str
  content : Option Str

/-- The modelled outcome of script.py lines 62-69 on one script element: the
`Shopify.shop` object-literal regex either finds no match, or its capture
fails `json.loads`, or it parses to a dict whose `country_code` entry is
`cc` (`none` when the key is absent). -/
inductive ShopScriptParse where
  | noMatch
  | decodeError
  | parsed (cc : Option Str)

/-- A `<script>` element: its `script.string or ''` text plus the modelled
regex-and-JSON outcome. -/
structure ScriptTag where
  text : Str
  shopParse : ShopScriptParse

/-- The dict built by `extract_shopify_data` (script.py lines 24-28). -/
structure ShopData where
  country_code : Option Str
  shop_id : Option Str
  indicators : List Str

/-- A fetched page as `extract_shopify_data` consumes it: the raw body (for
substring checks), the captured group of the `Shopify.locale` regex (a
capability), the parsed meta and script elements, and whether each of the
three currency regexes of lines 73-77 matched (capabilities). -/
structure Page where
  html : Str
  localeCapture : Option Str
  metas : List MetaTag
  scripts : List ScriptTag
  currency1 : Bool
  currency2 : Bool
  currency3 : Bool

/-- The address-format markers of script.py lines 85-91. -/
def address_indicators : List Str :=
  ["pin-code".toList, "pincode".toList, "postal-code-in".toList,
   "india-zip".toList, "india-post".toList]

/-- One iteration of the meta-tag loop (script.py lines 42-55): check 2
(og:locale containing `IN`) may append an indicator; check 3
(shopify-digital-wallet) only extracts a shop id via
`content.split('/shop/')[-1].split('/')[0]`. -/
def metaStep (data : ShopData) (meta : MetaTag) : ShopData :=
  let data :=
    if meta.property = some "og:locale".toList then
      if containsSub "IN".toList (pyUpper (meta.content.getD [])) then
        { data with country_code := some "IN".toList,
                    indicators := data.indicators ++ ["Meta locale: IN".toList] }
      else data
    else data
  if meta.name = some "shopify-digital-wallet".toList then
    if containsSub "/shop/".toList (meta.content.getD []) then
      { data with shop_id := some ((pySplit "/".toList
          ((pySplit "/shop/".toList (meta.content.getD [])).getLastD [])).headD []) }
    else data
  else data

/-- One iteration of the script loop (script.py lines 58-70), check 4: only a
script text containing `Shopify.shop` whose object literal parses with
`country_code == 'IN'` appends an indicator. -/
def scriptStep (data : ShopData) (s : ScriptTag) : ShopData :=
  if containsSub "Shopify.shop".toList s.text then
    match s.shopParse with
    | .parsed cc =>
      if cc = some "IN".toList then
        { data with country_code := some "IN".toList,
                    indicators := data.indicators ++ ["Shopify.shop country: IN".toList] }
      else data
    | _ => data
  else data

/-- Check 1 (script.py lines 31-36): the `Shopify.locale` regex capture,
when present and containing `IN` (case-insensitively), sets the country code
and appends an indicator. -/
def check1 (p : Page) (data : ShopData) : ShopData :=
  match p.localeCapture with
  | some v =>
    if containsSub "IN".toList (pyUpper v) then
      { data with country_code := some "IN".toList,
                  indicators := data.indicators ++ ["Shopify locale: IN".toList] }
    else data
  | none => data

/-- Check 5 (script.py lines 72-82): the three currency regexes with a
`break` after the first match, hence at most one appended label. -/
def check5 (p : Page) (data : ShopData) : ShopData :=
  if p.currency1 || p.currency2 || p.currency3 then
    { data with indicators := data.indicators ++ ["Currency: INR".toList] }
  else data

/-- One iteration of check 6 (script.py lines 93-95): an address marker found
in the lowercased body appends its own label. -/
def addressStep (html : Str) (d : ShopData) (ind : Str) : ShopData :=
  if containsSub ind (pyLower html) then
    { d with indicators := d.indicators ++ ["Indian address format: ".toList ++ ind] }
  else d

/-- `extract_shopify_data` (script.py lines 22-100): checks 1 (locale regex),
2-3 (meta loop), 4 (script loop), 5 (currency regexes) and 6 (address
markers), run in source order over the initial empty dict. -/
def extract_shopify_data (p : Page) : ShopData :=
  address_indicators.foldl (addressStep p.html)
    (check5 p
      (p.scripts.foldl scriptStep
        (p.metas.foldl metaStep
          (check1 p ⟨none, none, []⟩))))

/-- The confidence computation of `check_domain` (script.py lines 129-130):
`confidence = min(len(indicators) * 25, 100)`. -/
def confidence (p : Page) : Nat :=
  min ((extract_shopify_data p).indicators.length * 25) 100

/-- Every indicator label the extractor can ever append. -/
def indicator_labels : List Str :=
  ["Shopify locale: IN".toList, "Meta locale: IN".toList,
   "Shopify.shop country: IN".toList, "Currency: INR".toList] ++
    address_indicators.map (fun ind => "Indian address format: ".toList ++ ind)

end ScriptPy

/-! ## The batch loop of the probing mains, as a transition system -/

/-- Observable events of one probing run: unit `u` of batch `b` starts (its
coroutine first runs) or finishes (its coroutine returns). -/
inductive Ev where
  | start (b u : Nat)
  | fin (b u : Nat)
deriving DecidableEq

/-- Scheduler state: the current batch index, the units of the current batch
not yet started / in flight, and the remaining batches. -/
structure SchedSt where
  bIdx : Nat
  notStarted : List Nat
  running : List Nat
  rest : List (List Str)
deriving DecidableEq

/-- Enter the next non-empty batch (the mains' slicing never yields an empty
batch, but the scheduler is total). -/
def advanceSched : Nat → List (List Str) → SchedSt
  | b, [] => ⟨b, [], [], []⟩
  | b, batch :: rs =>
    if batch.isEmpty then advanceSched (b + 1) rs
    else ⟨b, List.range batch.length, [], rs⟩

/-- One observable step.  `await process_domains(batch)` (main2.py line 144,
script.py line 185) gathers exactly the current batch's tasks: only
current-batch units may run, and the loop enters the next batch exactly when
every unit of the current batch has finished. -/
def stepSched (st : SchedSt) : Ev → Option SchedSt
  | .start b u =>
    if b = st.bIdx ∧ u ∈ st.notStarted then
      some ⟨st.bIdx, st.notStarted.erase u, u :: st.running, st.rest⟩
    else none
  | .fin b u =>
    if b = st.bIdx ∧ u ∈ st.running then
      if st.notStarted.isEmpty ∧ (st.running.erase u).isEmpty then
        some (advanceSched (st.bIdx + 1) st.rest)
      else
        some ⟨st.bIdx, st.notStarted, st.running.erase u, st.rest⟩
    else none

/-- Run the event checker from a state over a trace. -/
def checkFrom (st : SchedSt) : List Ev → Bool
  | [] => true
  | e :: es =>
    match stepSched st e with
    | some st' => checkFrom st' es
    | none => false

/-- The event traces the batch loop can exhibit on batches `bs`. -/
def validTrace (bs : List (List Str)) (tr : List Ev) : Bool :=
  checkFrom (advanceSched 0 bs) tr

/-- The number of units of batch `b`. -/
def batchLen (bs : List (List Str)) (b : Nat) : Nat := (bs.getD b []).length

/-- Invariant tying a reachable scheduler state to the batch list and the
events consumed so far. -/
def SchedInv (bs : List (List Str)) (pre : List Ev) (st : SchedSt) : Prop :=
  st.rest = bs.drop (st.bIdx + 1) ∧
  (∀ u, u < batchLen bs st.bIdx →
    u ∈ st.notStarted ∨
    (Ev.start st.bIdx u ∈ pre ∧ u ∈ st.running) ∨
    (Ev.start st.bIdx u ∈ pre ∧ Ev.fin st.bIdx u ∈ pre)) ∧
  (∀ b u, b < st.bIdx → u < batchLen bs b →
    Ev.start b u ∈ pre ∧ Ev.fin b u ∈ pre)

/-! ## Module-load effects of the probing pipelines -/

/-- Externally visible effects of running a pipeline module. -/
inductive Effect where
  | writeFile (filename : Str) (rows : List (List Str))
  | message (msg : Str)
  | exitCode (code : Nat)
deriving DecidableEq

/-- main2.py line 13: the timestamped verifypass output name. -/
def verifypassFileName (ts : Str) : Str :=
  "verifypass_domains_".toList ++ ts ++ ".csv".toList

/-- script.py line 12: the timestamped locale output name. -/
def indianFileName (ts : Str) : Str :=
  "indian_shopify_domains_".toList ++ ts ++ ".csv".toList

/-- The effect trace of invoking main2.py: the module body creates the
verifypass CSV and writes its header (lines 16-18) before `main` runs; `main`
then validates `sys.argv` (lines 123-125) and either prints the usage message
and exits with status 1, or continues with the run (abstracted as `rest`). -/
def main2Trace (ts : Str) (argv : List Str) (rest : List Effect) : List Effect :=
  Effect.writeFile (verifypassFileName ts)
      [["Domain", "Timestamp", "Status"].map String.toList] ::
    (if argv.length < 2 then
      [Effect.message "Please provide the CSV file path as an argument".toList,
       Effect.exitCode 1]
    else rest)

/-- The effect trace of invoking script.py: the module body creates the
output CSV and writes its header (lines 161-163) before `main` runs; `main`
then validates `sys.argv` (lines 166-168) likewise. -/
def scriptTrace (ts : Str) (argv : List Str) (rest : List Effect) : List Effect :=
  Effect.writeFile (indianFileName ts)
      [["Domain", "Confidence", "Indicators", "Country_Code", "Shop_ID",
        "Timestamp"].map String.toList] ::
    (if argv.length < 2 then
      [Effect.message "Please provide the CSV file path as an argument".toList,
       Effect.exitCode 1]
    else rest)

/-- Stated from the spec's words, for comparison in C8: a URL scheme is
present when the string contains the `://` scheme separator. -/
def specHasUrlScheme (s : Str) : Bool := containsSub "://".toList s

/-- A page with two `og:locale` metas mentioning `IN`, on which the indicator
list is `['Meta locale: IN', 'Meta locale: IN']`. -/
def dupLocalePage : ScriptPy.Page :=
  ⟨[], none,
   [⟨some "og:locale".toList, none, some "en_IN".toList⟩,
    ⟨some "og:locale".toList, none, some "en_IN".toList⟩],
   [], false, false, false⟩

/-- Trace fixture for the C7 witness: all fifty units of batch 0 start and
finish, then unit 0 of batch 1 starts. -/
def wtrace7 : List Ev :=
  (List.range 50).map (Ev.start 0) ++ (List.range 50).map (Ev.fin 0) ++
    [Ev.start 1 0]

/-- Domain fixture for the C7 witness: 51 domains, hence two batches. -/
def wdomains7 : List Str := List.replicate 51 "d".toList

/-- Fetch oracle for the C6 witness: `b.com` times out, everything else
responds 200 with a marker in mixed case. -/
def fetchW6 : Str → Main2.Fetched := fun d =>
  if d = "https://b.com".toList then Main2.Fetched.timeout
  else Main2.Fetched.ok 200 "x VerifyPass.js y".toList

/-! ## Theorems -/

/-- An infix of a character-wise image is the image of an infix. -/
theorem exists_preimage_of_infix_map {f : Char → Char} {m l : List Char}
    (h : m <:+: l.map f) : ∃ sub : List Char, sub <:+: l ∧ sub.map f = m := by
  rcases h with ⟨s, t, hst⟩
  have h1 : l.map f = s ++ (m ++ t) := by rw [← hst, List.append_assoc]
  rcases List.map_eq_append_iff.mp h1 with ⟨l₁, l₂, hl, _, h₂⟩
  rcases List.map_eq_append_iff.mp h₂ with ⟨l₃, l₄, hl₂, h₃, _⟩
  exact ⟨l₃, ⟨l₁, l₄, by rw [hl, hl₂, List.append_assoc]⟩, h₃⟩

/-- C1: the claim says the fan-out scheduler dispatches one page-fetch task for
every page from 1 to `last_page` inclusive.  The code iterates
`range(1, last_page)`, so the resolved last page itself is never dispatched:
for `last_page = 2` only page 1 gets a task.  This contradicts the code's own
progress message (`'Scraping till page number {last_page}'`) and the bound
resolver, which returns the number of an existing page of the directory. -/
theorem claim1_last_page_never_dispatched :
    (∀ last_page : Nat, last_page ∉ MainPy.fetch_pages last_page) ∧
    MainPy.fetch_pages 2 = [1] ∧ (MainPy.fetch_pages 2).length = 1 := by
  refine ⟨fun L h => ?_, by decide, by decide⟩
  simp only [MainPy.fetch_pages, pyrange, List.mem_range'_1] at h
  omega

/-- C4: a candidate element's trimmed text enters the discovery output iff it
ends with exactly `'.' + zone` (an exact, case-sensitive suffix match). -/
theorem claim4_domain_suffix_filter (zone : Str) (texts : List Str) (t : Str)
    (ht : t ∈ texts) :
    pystrip t ∈ MainPy.scrape_page zone texts ↔ ('.' :: zone) <:+ pystrip t := by
  constructor
  · intro hm
    rcases List.mem_filterMap.mp hm with ⟨u, _, hval⟩
    by_cases hc : ('.' :: zone) <:+ pystrip u
    · rw [if_pos hc] at hval
      rw [← Option.some_inj.mp hval]
      exact hc
    · rw [if_neg hc] at hval
      exact absurd hval (Option.noConfusion)
  · intro hs
    exact List.mem_filterMap.mpr ⟨t, ht, by rw [if_pos hs]⟩

/-- C4 witness: for zone `com`, `"shop.com"` is kept and `"shop.com.uk"` is
rejected. -/
theorem claim4_domain_suffix_filter_witness :
    (pystrip "shop.com".toList ∈
      MainPy.scrape_page "com".toList ["shop.com".toList, "shop.com.uk".toList]) ∧
    (pystrip "shop.com.uk".toList ∉
      MainPy.scrape_page "com".toList ["shop.com".toList, "shop.com.uk".toList]) := by
  constructor
  · exact (claim4_domain_suffix_filter "com".toList _ _ (by decide)).mpr (by decide)
  · intro h
    exact absurd ((claim4_domain_suffix_filter "com".toList _ _ (by decide)).mp h)
      (by decide)

/-- C3: the widget extractor fires iff the body contains one of the four fixed
markers in any character case (a substring whose character-wise lowercasing is
the marker). -/
theorem claim3_widget_marker_detection (html_content : Str) :
    Main2.has_verifypass html_content = true ↔
      ∃ m ∈ Main2.verifypass_indicators, ∃ sub : Str,
        sub <:+: html_content ∧ sub.map Char.toLower = m := by
  rw [Main2.has_verifypass, List.any_eq_true]
  constructor
  · rintro ⟨m, hm, hc⟩
    rw [containsSub, decide_eq_true_iff] at hc
    rcases exists_preimage_of_infix_map hc with ⟨sub, hsub, hmap⟩
    exact ⟨m, hm, sub, hsub, hmap⟩
  · rintro ⟨m, hm, sub, hsub, hmap⟩
    refine ⟨m, hm, ?_⟩
    rw [containsSub, decide_eq_true_iff, ← hmap]
    exact hsub.map Char.toLower

/-- C8 counterexample: the claim says `https://` is prepended iff the string
carries no URL scheme.  The code tests `domain.startswith('http')` instead:
`httpbin.org` carries no scheme yet is requested unchanged, and `ftp://x.com`
carries a scheme yet gets `https://` prepended in front of it. -/
theorem claim8_counterexample :
    specHasUrlScheme "httpbin.org".toList = false ∧
    normalizeUrl "httpbin.org".toList = "httpbin.org".toList ∧
    normalizeUrl "httpbin.org".toList ≠ "https://".toList ++ "httpbin.org".toList ∧
    specHasUrlScheme "ftp://x.com".toList = true ∧
    normalizeUrl "ftp://x.com".toList = "https://ftp://x.com".toList := by
  refine ⟨by decide, by decide, by decide, by decide, by decide⟩

/-- C8 (amended): the domain prober prepends `https://` iff the input string
does not start with the literal `http`; a string starting with `http` is
requested unchanged.  (Shared by both probing pipelines.) -/
theorem claim8_http_literal_gate (domain : Str) :
    ("http".toList <+: domain → normalizeUrl domain = domain) ∧
    (¬ "http".toList <+: domain →
      normalizeUrl domain = "https://".toList ++ domain) := by
  constructor
  · intro h
    simp only [normalizeUrl]
    rw [if_pos h]
  · intro h
    simp only [normalizeUrl]
    rw [if_neg h]

/-- C8 witness: `example.com` (no `http` head) gets the prefix. -/
theorem claim8_http_literal_gate_witness :
    normalizeUrl "example.com".toList = "https://".toList ++ "example.com".toList :=
  (claim8_http_literal_gate "example.com".toList).2 (by decide)

/-- The result dict always carries the normalized URL as its domain. -/
theorem check_domain_fst_domain (fetch : Str → Main2.Fetched) (x : Str) :
    (Main2.check_domain fetch x).1.domain = normalizeUrl x := by
  unfold Main2.check_domain
  cases hf : fetch (normalizeUrl x) with
  | ok st body => by_cases h2 : st ≠ 200 <;> simp [h2]
  | timeout => rfl
  | failure e => rfl

/-- C6: per-unit failure isolation in a dispatch group.  If the unit at index
`i` times out, the gathered run still yields one result per unit, the failure
is captured as the data value `error = 'Timeout'`, every sibling's result is
exactly the result its own fetch determines, and every sibling's sink rows
reach the incremental sink. -/
theorem claim6_partial_failure_isolation (fetch : Str → Main2.Fetched)
    (domains : List Str) (i : Nat) (d : Str)
    (hd : domains[i]? = some d)
    (hto : fetch (normalizeUrl d) = Main2.Fetched.timeout) :
    (Main2.process_domains fetch domains).1.length = domains.length ∧
    (Main2.process_domains fetch domains).1[i]? =
      some ⟨normalizeUrl d, false, none, false, some "Timeout".toList⟩ ∧
    (∀ (j : Nat) (d' : Str), domains[j]? = some d' →
      (Main2.process_domains fetch domains).1[j]? =
        some (Main2.check_domain fetch d').1) ∧
    (∀ d' ∈ domains, ∀ row ∈ (Main2.check_domain fetch d').2,
      row ∈ (Main2.process_domains fetch domains).2) := by
  have hget : ∀ (j : Nat) (d' : Str), domains[j]? = some d' →
      (Main2.process_domains fetch domains).1[j]? =
        some (Main2.check_domain fetch d').1 := by
    intro j d' hj
    simp [Main2.process_domains, List.getElem?_map, hj]
  refine ⟨by simp [Main2.process_domains], ?_, hget, ?_⟩
  · rw [hget i d hd]
    simp [Main2.check_domain, hto]
  · intro d' hd' row hrow
    simp only [Main2.process_domains]
    rw [List.mem_flatten]
    exact ⟨(Main2.check_domain fetch d').2,
      List.mem_map.mpr ⟨Main2.check_domain fetch d', List.mem_map.mpr ⟨d', hd', rfl⟩, rfl⟩,
      hrow⟩

/-- C6 witness: in the batch `[a.com, b.com]` with `b.com` timing out, the run
yields both results, records the timeout as data, and the sibling's detection
row still reaches the sink. -/
theorem claim6_partial_failure_isolation_witness :
    (Main2.process_domains fetchW6 ["a.com".toList, "b.com".toList]).1.length = 2 ∧
    (Main2.process_domains fetchW6 ["a.com".toList, "b.com".toList]).1[1]? =
      some ⟨normalizeUrl "b.com".toList, false, none, false, some "Timeout".toList⟩ := by
  have h := claim6_partial_failure_isolation fetchW6 ["a.com".toList, "b.com".toList]
    1 "b.com".toList (by decide) (by decide)
  exact ⟨h.1, h.2.1⟩

/-- Shifting the start of an arithmetic progression. -/
theorem range'_add_left (n : Nat) :
    ∀ s t step : Nat, List.range' (t + s) n step = (List.range' s n step).map (t + ·) := by
  induction n with
  | zero => intro s t step; rfl
  | succ k ih =>
    intro s t step
    rw [List.range'_succ, List.range'_succ, List.map_cons, Nat.add_assoc, ih (s + step) t]

/-- Flattening the first `k` batches of width `bsz` recovers a prefix. -/
theorem pybatches_aux (bsz : Nat) :
    ∀ (k : Nat) (l : List Str),
      ((List.range' 0 k bsz).map fun i => (l.drop i).take bsz).flatten =
        l.take (bsz * k) := by
  intro k
  induction k with
  | zero => intro l; rfl
  | succ k ih =>
    intro l
    rw [List.range'_succ, List.map_cons, List.flatten_cons, List.drop_zero]
    have hshift : List.range' (0 + bsz) k bsz = (List.range' 0 k bsz).map (bsz + ·) := by
      rw [Nat.zero_add, ← Nat.add_zero bsz]
      exact range'_add_left k 0 bsz bsz
    rw [hshift, List.map_map]
    have hfun : ((fun i => (l.drop i).take bsz) ∘ (bsz + ·)) =
        fun i => ((l.drop bsz).drop i).take bsz := by
      funext i
      simp [Function.comp, List.drop_drop, Nat.add_comm]
    rw [hfun, ih (l.drop bsz), ← List.take_add, Nat.mul_succ, Nat.add_comm]

/-- The batches of both probing mains partition the input list in order. -/
theorem pybatches_flatten (bsz : Nat) (hb : 0 < bsz) (l : List Str) :
    (pybatches bsz l).flatten = l := by
  rw [pybatches, pybatches_aux]
  apply List.take_of_length_le
  have key : ∀ m r : Nat, m + r = l.length + (bsz - 1) → r < bsz →
      l.length ≤ m := by
    intro m r h1 h2
    omega
  exact key _ _ (Nat.div_add_mod (l.length + (bsz - 1)) bsz) (Nat.mod_lt _ hb)

/-- Every batch produced by the mains' slicing has at most `bsz` elements. -/
theorem pybatches_size_le (bsz : Nat) (l : List Str) :
    ∀ b ∈ pybatches bsz l, b.length ≤ bsz := by
  intro b hb
  rcases List.mem_map.mp hb with ⟨i, _, hi⟩
  rw [← hi, List.length_take]
  exact min_le_left _ _

/-- Over a whole run, main2's accumulated results are one `check_domain`
result per input domain, in input order. -/
theorem main_results_eq_map (fetch : Str → Main2.Fetched) (domains : List Str) :
    Main2.main_results fetch domains =
      domains.map fun x => (Main2.check_domain fetch x).1 := by
  rw [Main2.main_results]
  have h1 : ∀ batch : List Str, (Main2.process_domains fetch batch).1 =
      batch.map fun x => (Main2.check_domain fetch x).1 := by
    intro batch
    simp [Main2.process_domains]
  simp only [h1]
  rw [← List.map_flatten, pybatches_flatten 50 (by omega) domains]

/-- In a duplicate-free list, at most one element passes an equality filter. -/
theorem filter_beq_length_le_one {l : List Str} (hnd : l.Nodup) (d : Str) :
    (l.filter (fun y => y == d)).length ≤ 1 := by
  induction l with
  | nil => simp
  | cons a as ih =>
    rw [List.nodup_cons] at hnd
    rw [List.filter_cons]
    by_cases ha : (a == d) = true
    · rw [if_pos ha]
      have hnil : as.filter (fun y => y == d) = [] := by
        apply List.filter_eq_nil_iff.mpr
        intro y hy hpy
        exact hnd.1 (by rw [eq_of_beq ha, ← eq_of_beq hpy]; exact hy)
      rw [hnil]
      simp
    · rw [if_neg ha]
      exact ih hnd.2

/-- C9 counterexample: with the input CSV listing `a.com` twice (the loaders
do not deduplicate), the run writes two result rows and two sink rows for the
same domain, so a ProbeResult is not emitted at most once per domain. -/
theorem claim9_counterexample :
    ((Main2.main_results (fun _ => Main2.Fetched.ok 200 "data-verifypass".toList)
        ["a.com".toList, "a.com".toList]).filter
      (fun r => r.domain == "https://a.com".toList)).length = 2 ∧
    ((Main2.main_sink (fun _ => Main2.Fetched.ok 200 "data-verifypass".toList)
        ["a.com".toList, "a.com".toList]).filter
      (fun row => row.domain == "https://a.com".toList)).length = 2 := by
  refine ⟨by decide, by decide⟩

/-- C9 (amended): one result is produced per input row, so when the input
rows are pairwise distinct after URL normalization, at most one result row
per domain is written in a run. -/
theorem claim9_at_most_one_record_per_distinct_domain
    (fetch : Str → Main2.Fetched) (domains : List Str)
    (hnd : (domains.map normalizeUrl).Nodup) (d : Str) :
    ((Main2.main_results fetch domains).filter
      (fun r => r.domain == d)).length ≤ 1 := by
  rw [main_results_eq_map, List.filter_map, List.length_map]
  have hpf : ((fun r => r.domain == d) ∘ fun x => (Main2.check_domain fetch x).1) =
      fun x => normalizeUrl x == d := by
    funext x
    simp only [Function.comp]
    rw [check_domain_fst_domain]
  rw [hpf]
  have h2 : (domains.filter fun x => normalizeUrl x == d).length =
      ((domains.map normalizeUrl).filter (fun y => y == d)).length := by
    rw [List.filter_map, List.length_map]
    rfl
  rw [h2]
  exact filter_beq_length_le_one hnd d

/-- C9 witness: two distinct input domains yield at most one row each. -/
theorem claim9_at_most_one_record_per_distinct_domain_witness :
    ((Main2.main_results (fun _ => Main2.Fetched.timeout)
        ["a.com".toList, "b.com".toList]).filter
      (fun r => r.domain == "https://a.com".toList)).length ≤ 1 :=
  claim9_at_most_one_record_per_distinct_domain (fun _ => Main2.Fetched.timeout)
    ["a.com".toList, "b.com".toList] (by decide) "https://a.com".toList

/-- C5 counterexample: the full-results file is *not* written under the
literal name `domain_check_results.csv` that `main` passes, and its name is
not the same across runs — `save_results` shadows the passed name with a
freshly timestamped one. -/
theorem claim5_counterexample :
    (Main2.main_saved (fun _ => Main2.Fetched.timeout) []
        "20240101_000000".toList).filename ≠ "domain_check_results.csv".toList ∧
    (Main2.main_saved (fun _ => Main2.Fetched.timeout) []
        "20240101_000000".toList).filename ≠
      (Main2.main_saved (fun _ => Main2.Fetched.timeout) []
        "20240102_121212".toList).filename := by
  refine ⟨by decide, by decide⟩

/-- C5 (amended): the full per-domain results file is written under the
timestamped name `domain_check_results_{timestamp}.csv` computed inside
`save_results` — whatever filename argument the caller passes — with the
header `Domain,Valid,Status,VerifyPass,Error` and one row per input domain. -/
theorem claim5_full_results_file (fetch : Str → Main2.Fetched)
    (domains : List Str) (passed ts : Str) :
    (Main2.save_results (Main2.main_results fetch domains) passed ts).filename =
      "domain_check_results_".toList ++ ts ++ ".csv".toList ∧
    (Main2.save_results (Main2.main_results fetch domains) passed ts).rows.head? =
      some (["Domain", "Valid", "Status", "VerifyPass", "Error"].map String.toList) ∧
    (Main2.save_results (Main2.main_results fetch domains) passed ts).rows.length =
      domains.length + 1 := by
  refine ⟨rfl, rfl, ?_⟩
  simp only [Main2.save_results, List.length_cons, main_results_eq_map,
    List.length_map]

/-- A left fold whose steps only append labels from `labels` keeps every
indicator either from the start value or inside `labels`. -/
theorem foldl_indicators_mem {α : Type}
    (step : ScriptPy.ShopData → α → ScriptPy.ShopData) (labels : List Str) :
    ∀ L : List α,
      (∀ a ∈ L, ∀ (d : ScriptPy.ShopData) (s : Str),
        s ∈ (step d a).indicators → s ∈ d.indicators ∨ s ∈ labels) →
      ∀ (d : ScriptPy.ShopData) (s : Str),
        s ∈ (L.foldl step d).indicators → s ∈ d.indicators ∨ s ∈ labels := by
  intro L
  induction L with
  | nil => intro _ d s hs; exact Or.inl hs
  | cons a as ih =>
    intro hstep d s hs
    rcases ih (fun x hx => hstep x (List.mem_cons_of_mem a hx)) (step d a) s hs with h | h
    · exact hstep a (List.mem_cons_self a as) d s h
    · exact Or.inr h

/-- `check1` only ever appends the `Shopify locale: IN` label. -/
theorem check1_indicators (p : ScriptPy.Page) (d : ScriptPy.ShopData) (s : Str)
    (hs : s ∈ (ScriptPy.check1 p d).indicators) :
    s ∈ d.indicators ∨ s = "Shopify locale: IN".toList := by
  unfold ScriptPy.check1 at hs
  cases hv : p.localeCapture with
  | none => rw [hv] at hs; exact Or.inl hs
  | some v =>
    rw [hv] at hs
    by_cases hin : containsSub "IN".toList (pyUpper v) = true
    · simp only [hin, if_true] at hs
      rcases List.mem_append.mp hs with h | h
      · exact Or.inl h
      · exact Or.inr (List.mem_singleton.mp h)
    · simp only [hin, if_false] at hs
      exact Or.inl hs

/-- `metaStep` only ever appends the `Meta locale: IN` label (the wallet
branch touches only `shop_id`). -/
theorem metaStep_indicators (d : ScriptPy.ShopData) (m : ScriptPy.MetaTag) (s : Str)
    (hs : s ∈ (ScriptPy.metaStep d m).indicators) :
    s ∈ d.indicators ∨ s = "Meta locale: IN".toList := by
  unfold ScriptPy.metaStep at hs
  by_cases h1 : m.property = some "og:locale".toList <;>
    by_cases h2 : containsSub "IN".toList (pyUpper (m.content.getD [])) = true <;>
      by_cases h3 : m.name = some "shopify-digital-wallet".toList <;>
        by_cases h4 : containsSub "/shop/".toList (m.content.getD []) = true <;>
          simp only [h1, h2, h3, h4, if_true, if_false, if_pos, if_neg,
            not_false_iff, not_true] at hs <;>
          first
            | exact Or.inl hs
            | (rcases List.mem_append.mp hs with h | h
               · exact Or.inl h
               · exact Or.inr (List.mem_singleton.mp h))

/-- `scriptStep` only ever appends the `Shopify.shop country: IN` label. -/
theorem scriptStep_indicators (d : ScriptPy.ShopData) (t : ScriptPy.ScriptTag) (s : Str)
    (hs : s ∈ (ScriptPy.scriptStep d t).indicators) :
    s ∈ d.indicators ∨ s = "Shopify.shop country: IN".toList := by
  unfold ScriptPy.scriptStep at hs
  by_cases h1 : containsSub "Shopify.shop".toList t.text = true
  · rw [if_pos h1] at hs
    cases hp : t.shopParse with
    | noMatch => rw [hp] at hs; exact Or.inl hs
    | decodeError => rw [hp] at hs; exact Or.inl hs
    | parsed cc =>
      rw [hp] at hs
      by_cases h2 : cc = some "IN".toList
      · simp only [h2, if_true, if_pos] at hs
        rcases List.mem_append.mp hs with h | h
        · exact Or.inl h
        · exact Or.inr (List.mem_singleton.mp h)
      · simp only [h2, if_false, if_neg, not_false_iff] at hs
        exact Or.inl hs
  · rw [if_neg h1] at hs
    exact Or.inl hs

/-- `check5` only ever appends the `Currency: INR` label. -/
theorem check5_indicators (p : ScriptPy.Page) (d : ScriptPy.ShopData) (s : Str)
    (hs : s ∈ (ScriptPy.check5 p d).indicators) :
    s ∈ d.indicators ∨ s = "Currency: INR".toList := by
  unfold ScriptPy.check5 at hs
  by_cases hc : (p.currency1 || p.currency2 || p.currency3) = true
  · simp only [hc, if_true] at hs
    rcases List.mem_append.mp hs with h | h
    · exact Or.inl h
    · exact Or.inr (List.mem_singleton.mp h)
  · simp only [hc, if_false] at hs
    exact Or.inl hs

/-- Every indicator the extractor emits is one of the nine fixed labels; in
particular the shop-identifier extraction (check 3) never contributes one. -/
theorem extract_indicators_labels (p : ScriptPy.Page) :
    ∀ s ∈ (ScriptPy.extract_shopify_data p).indicators,
      s ∈ ScriptPy.indicator_labels := by
  intro s hs
  rw [ScriptPy.extract_shopify_data] at hs
  rcases foldl_indicators_mem (ScriptPy.addressStep p.html) ScriptPy.indicator_labels
      ScriptPy.address_indicators
      (fun a ha d s' hs' => by
        unfold ScriptPy.addressStep at hs'
        by_cases hin : containsSub a (pyLower p.html) = true
        · simp only [hin, if_true] at hs'
          rcases List.mem_append.mp hs' with h | h
          · exact Or.inl h
          · refine Or.inr ?_
            rw [List.mem_singleton.mp h]
            exact List.mem_append_right _ (List.mem_map.mpr ⟨a, ha, rfl⟩)
        · simp only [hin, if_false] at hs'
          exact Or.inl hs')
      _ s hs with h5 | h
  · rcases check5_indicators p _ s h5 with h4 | h
    · rcases foldl_indicators_mem ScriptPy.scriptStep ScriptPy.indicator_labels
          p.scripts
          (fun a _ d s' hs' => (scriptStep_indicators d a s' hs').imp id
            (fun he => by rw [he]; decide))
          _ s h4 with h3 | h
      · rcases foldl_indicators_mem ScriptPy.metaStep ScriptPy.indicator_labels
            p.metas
            (fun a _ d s' hs' => (metaStep_indicators d a s' hs').imp id
              (fun he => by rw [he]; decide))
            _ s h3 with h1 | h
        · rcases check1_indicators p _ s h1 with h0 | h
          · exact absurd h0 (List.not_mem_nil s)
          · rw [h]; decide
        · exact h
      · exact h
    · rw [h]; decide
  · exact h

/-- C2 counterexample: on a page with two `og:locale` metas containing `IN`,
the meta loop appends the same label twice (`find_all` visits every meta), so
`len(indicators)` is 2 while the number of *distinct* fired indicators is 1:
the computed confidence is 50, not `min(100, 25 × 1) = 25`. -/
theorem claim2_counterexample :
    ScriptPy.confidence dupLocalePage = 50 ∧
    (ScriptPy.extract_shopify_data dupLocalePage).indicators.dedup.length = 1 ∧
    ScriptPy.confidence dupLocalePage ≠
      min 100 (25 * (ScriptPy.extract_shopify_data dupLocalePage).indicators.dedup.length) := by
  refine ⟨by decide, by decide, by decide⟩

/-- C2 (amended): the computed confidence equals `min(100, 25 × n)` where `n`
counts the indicator entries appended by checks 1, 2, 4, 5 and 6 *with
multiplicity* (checks 2 and 4 append once per matching element); every entry
is one of those checks' fixed labels, so check 3 (shop-identifier extraction)
never contributes; and confidence is monotone in that count. -/
theorem claim2_confidence_formula (p : ScriptPy.Page) :
    ScriptPy.confidence p =
      min 100 (25 * (ScriptPy.extract_shopify_data p).indicators.length) ∧
    (∀ s ∈ (ScriptPy.extract_shopify_data p).indicators,
      s ∈ ScriptPy.indicator_labels) ∧
    (∀ q : ScriptPy.Page,
      (ScriptPy.extract_shopify_data p).indicators.length ≤
        (ScriptPy.extract_shopify_data q).indicators.length →
      ScriptPy.confidence p ≤ ScriptPy.confidence q) := by
  refine ⟨?_, extract_indicators_labels p, ?_⟩
  · rw [ScriptPy.confidence, Nat.min_comm, Nat.mul_comm]
  · intro q hlen
    simp only [ScriptPy.confidence, Nat.min_def]
    split <;> split <;> omega

/-- C2 witness: the amended formula and monotonicity evaluated on the
two-meta page. -/
theorem claim2_confidence_formula_witness :
    ScriptPy.confidence dupLocalePage =
      min 100 (25 * (ScriptPy.extract_shopify_data dupLocalePage).indicators.length) ∧
    ScriptPy.confidence dupLocalePage ≤ ScriptPy.confidence dupLocalePage :=
  ⟨(claim2_confidence_formula dupLocalePage).1,
   (claim2_confidence_formula dupLocalePage).2.2 dupLocalePage (Nat.le_refl _)⟩

/-- `advanceSched` establishes the scheduler invariant, given that every unit
of every earlier batch has already started and finished. -/
theorem advanceSched_inv (bs : List (List Str)) (pre : List Ev) :
    ∀ (rs : List (List Str)) (b : Nat), rs = bs.drop b →
      (∀ b' u, b' < b → u < batchLen bs b' →
        Ev.start b' u ∈ pre ∧ Ev.fin b' u ∈ pre) →
      SchedInv bs pre (advanceSched b rs) := by
  intro rs
  induction rs with
  | nil =>
    intro b hdrop h3
    have hlen : bs.length ≤ b := List.drop_eq_nil_iff.mp hdrop.symm
    have c1 : ([] : List (List Str)) = bs.drop (b + 1) := by
      symm
      rw [List.drop_eq_nil_iff]
      omega
    have c2 : ∀ u, u < batchLen bs b → u ∈ ([] : List Nat) ∨
        (Ev.start b u ∈ pre ∧ u ∈ ([] : List Nat)) ∨
        (Ev.start b u ∈ pre ∧ Ev.fin b u ∈ pre) := by
      intro u hu
      rw [batchLen, List.getD_eq_getElem?_getD,
        List.getElem?_eq_none (by omega : bs.length ≤ b)] at hu
      exact absurd hu (by simp)
    exact ⟨c1, c2, h3⟩
  | cons batch rs ih =>
    intro b hdrop h3
    have hb : bs[b]? = some batch := by
      have h0 : (bs.drop b)[0]? = some batch := by
        rw [← hdrop, List.getElem?_cons_zero]
      rwa [List.getElem?_drop, Nat.add_zero] at h0
    have hdd := List.drop_drop 1 b bs
    have hdrop1 : bs.drop (b + 1) = rs := by
      rw [← hdd, ← hdrop]
      rfl
    have hbl : batchLen bs b = batch.length := by
      rw [batchLen, List.getD_eq_getElem?_getD, hb]
      rfl
    rw [advanceSched]
    by_cases hemp : batch.isEmpty
    · rw [if_pos hemp]
      apply ih (b + 1) hdrop1.symm
      intro b' u hb' hu
      rcases Nat.lt_succ_iff_lt_or_eq.mp hb' with h | h
      · exact h3 b' u h hu
      · subst h
        rw [hbl, List.isEmpty_iff.mp hemp] at hu
        exact absurd hu (by simp)
    · rw [if_neg hemp]
      exact ⟨hdrop1.symm, fun u hu => Or.inl (List.mem_range.mpr (by rwa [hbl] at hu)),
        h3⟩

/-- Every accepted event preserves the scheduler invariant. -/
theorem stepSched_inv (bs : List (List Str)) (pre : List Ev) (st st' : SchedSt)
    (e : Ev) (hinv : SchedInv bs pre st) (hstep : stepSched st e = some st') :
    SchedInv bs (pre ++ [e]) st' := by
  obtain ⟨h1, h2, h3⟩ := hinv
  cases e with
  | start b u =>
    simp only [stepSched] at hstep
    by_cases hc : b = st.bIdx ∧ u ∈ st.notStarted
    · rw [if_pos hc] at hstep
      obtain ⟨hb, hu⟩ := hc
      subst hb
      obtain rfl : (⟨st.bIdx, st.notStarted.erase u, u :: st.running, st.rest⟩ :
          SchedSt) = st' := Option.some_inj.mp hstep
      refine ⟨h1, ?_, ?_⟩
      · intro w hw
        rcases h2 w hw with hns | ⟨hsw, hrw⟩ | ⟨hsw, hfw⟩
        · by_cases hwu : w = u
          · subst hwu
            exact Or.inr (Or.inl ⟨List.mem_append_right _ (List.mem_singleton.mpr rfl),
              List.mem_cons_self w _⟩)
          · exact Or.inl ((List.mem_erase_of_ne hwu).mpr hns)
        · exact Or.inr (Or.inl ⟨List.mem_append_left _ hsw, List.mem_cons_of_mem _ hrw⟩)
        · exact Or.inr (Or.inr ⟨List.mem_append_left _ hsw, List.mem_append_left _ hfw⟩)
      · intro b' w hb' hw
        exact ⟨List.mem_append_left _ (h3 b' w hb' hw).1,
          List.mem_append_left _ (h3 b' w hb' hw).2⟩
    · rw [if_neg hc] at hstep
      exact absurd hstep (by simp)
  | fin b u =>
    simp only [stepSched] at hstep
    by_cases hc : b = st.bIdx ∧ u ∈ st.running
    · rw [if_pos hc] at hstep
      obtain ⟨hb, hu⟩ := hc
      subst hb
      by_cases hdone : st.notStarted.isEmpty ∧ (st.running.erase u).isEmpty
      · rw [if_pos hdone] at hstep
        obtain rfl : advanceSched (st.bIdx + 1) st.rest = st' := Option.some_inj.mp hstep
        apply advanceSched_inv bs (pre ++ [Ev.fin st.bIdx u]) st.rest (st.bIdx + 1)
          (by rw [h1])
        intro b' w hb' hw
        rcases Nat.lt_succ_iff_lt_or_eq.mp hb' with h | h
        · exact ⟨List.mem_append_left _ (h3 b' w h hw).1,
            List.mem_append_left _ (h3 b' w h hw).2⟩
        · subst h
          rcases h2 w hw with hns | ⟨hsw, hrw⟩ | ⟨hsw, hfw⟩
          · rw [List.isEmpty_iff.mp hdone.1] at hns
            exact absurd hns (by simp)
          · by_cases hwu : w = u
            · subst hwu
              exact ⟨List.mem_append_left _ hsw,
                List.mem_append_right _ (List.mem_singleton.mpr rfl)⟩
            · rw [← List.mem_erase_of_ne hwu, List.isEmpty_iff.mp hdone.2] at hrw
              exact absurd hrw (by simp)
          · exact ⟨List.mem_append_left _ hsw, List.mem_append_left _ hfw⟩
      · rw [if_neg hdone] at hstep
        obtain rfl : (⟨st.bIdx, st.notStarted, st.running.erase u, st.rest⟩ :
            SchedSt) = st' := Option.some_inj.mp hstep
        refine ⟨h1, ?_, ?_⟩
        · intro w hw
          rcases h2 w hw with hns | ⟨hsw, hrw⟩ | ⟨hsw, hfw⟩
          · exact Or.inl hns
          · by_cases hwu : w = u
            · subst hwu
              exact Or.inr (Or.inr ⟨List.mem_append_left _ hsw,
                List.mem_append_right _ (List.mem_singleton.mpr rfl)⟩)
            · exact Or.inr (Or.inl ⟨List.mem_append_left _ hsw,
                (List.mem_erase_of_ne hwu).mpr hrw⟩)
          · exact Or.inr (Or.inr ⟨List.mem_append_left _ hsw, List.mem_append_left _ hfw⟩)
        · intro b' w hb' hw
          exact ⟨List.mem_append_left _ (h3 b' w hb' hw).1,
            List.mem_append_left _ (h3 b' w hb' hw).2⟩
    · rw [if_neg hc] at hstep
      exact absurd hstep (by simp)

/-- Along any accepted trace, a start event of a later batch is preceded by
the start and finish of every unit of every earlier batch. -/
theorem checkFrom_sequencing (bs : List (List Str)) :
    ∀ (tr : List Ev) (st : SchedSt) (pre : List Ev), SchedInv bs pre st →
      checkFrom st tr = true →
      ∀ (i b' u' b u : Nat), tr[i]? = some (Ev.start b' u') → b < b' →
        u < batchLen bs b →
        Ev.start b u ∈ pre ++ tr.take i ∧ Ev.fin b u ∈ pre ++ tr.take i := by
  intro tr
  induction tr with
  | nil =>
    intro st pre _ _ i b' u' b u hi
    rw [List.getElem?_nil] at hi
    exact absurd hi (by simp)
  | cons e es ih =>
    intro st pre hinv hchk i b' u' b u hi hb hu
    obtain ⟨st', hstep, hchk'⟩ :
        ∃ st', stepSched st e = some st' ∧ checkFrom st' es = true := by
      cases hs : stepSched st e with
      | some st' =>
        refine ⟨st', rfl, ?_⟩
        rw [checkFrom, hs] at hchk
        exact hchk
      | none =>
        rw [checkFrom, hs] at hchk
        exact absurd hchk (by simp)
    cases i with
    | zero =>
      have he : e = Ev.start b' u' := by simpa using hi
      subst he
      have hb' : b' = st.bIdx := by
        simp only [stepSched] at hstep
        by_cases hc : b' = st.bIdx ∧ u' ∈ st.notStarted
        · exact hc.1
        · rw [if_neg hc] at hstep
          exact absurd hstep (by simp)
      obtain ⟨_, h2, h3⟩ := hinv
      obtain ⟨hs, hf⟩ := h3 b u (by omega) hu
      simp only [List.take_zero, List.append_nil]
      exact ⟨hs, hf⟩
    | succ j =>
      have hi' : es[j]? = some (Ev.start b' u') := by simpa using hi
      have hres := ih st' (pre ++ [e]) (stepSched_inv bs pre st st' e hinv hstep)
        hchk' j b' u' b u hi' hb hu
      rw [List.take_succ_cons]
      have heq : pre ++ (e :: es.take j) = (pre ++ [e]) ++ es.take j := by
        rw [List.append_assoc, List.singleton_append]
      rw [heq]
      exact hres

/-- C7: a probing run processes the domains in sequential batches of at most
50 which partition the input in order, and in every trace the batch loop can
exhibit, no unit of a later batch starts before every unit of every earlier
batch has started and finished. -/
theorem claim7_batch_sequencing (domains : List Str) :
    (∀ batch ∈ pybatches 50 domains, batch.length ≤ 50) ∧
    (pybatches 50 domains).flatten = domains ∧
    (∀ (tr : List Ev) (i b' u' b u : Nat),
      validTrace (pybatches 50 domains) tr = true →
      tr[i]? = some (Ev.start b' u') → b < b' →
      u < batchLen (pybatches 50 domains) b →
      Ev.start b u ∈ tr.take i ∧ Ev.fin b u ∈ tr.take i) := by
  refine ⟨pybatches_size_le 50 domains, pybatches_flatten 50 (by omega) domains, ?_⟩
  intro tr i b' u' b u hval hi hb hu
  rw [validTrace] at hval
  have hinv : SchedInv (pybatches 50 domains) []
      (advanceSched 0 (pybatches 50 domains)) := by
    apply advanceSched_inv _ _ _ 0 (by rw [List.drop_zero])
    intro b' u hb'
    omega
  have hres := checkFrom_sequencing (pybatches 50 domains) tr _ [] hinv hval
    i b' u' b u hi hb hu
  simpa using hres

/-- C7 witness: with 51 domains (two batches) and the trace where all fifty
units of batch 0 start and finish before unit 0 of batch 1 starts, the start
of batch 1 at position 100 is preceded by the start and finish of unit 7 of
batch 0. -/
theorem claim7_batch_sequencing_witness :
    Ev.start 0 7 ∈ wtrace7.take 100 ∧ Ev.fin 0 7 ∈ wtrace7.take 100 :=
  (claim7_batch_sequencing wdomains7).2.2 wtrace7 100 1 0 0 7 (by decide) (by decide)
    (by decide) (by decide)

/-- C10: in both probing pipelines the timestamped output CSV and its header
row are written by the module body, strictly before command-line validation;
an invocation with no input path (argv shorter than 2) prints the usage
message, exits with status 1, and leaves exactly the header-only file behind
as its single file effect. -/
theorem claim10_header_before_validation (ts : Str) (argv : List Str)
    (rest rest' : List Effect) (hargv : argv.length < 2) :
    (main2Trace ts argv rest).head? =
      some (Effect.writeFile (verifypassFileName ts)
        [["Domain", "Timestamp", "Status"].map String.toList]) ∧
    (scriptTrace ts argv rest').head? =
      some (Effect.writeFile (indianFileName ts)
        [["Domain", "Confidence", "Indicators", "Country_Code", "Shop_ID",
          "Timestamp"].map String.toList]) ∧
    main2Trace ts argv rest =
      [Effect.writeFile (verifypassFileName ts)
        [["Domain", "Timestamp", "Status"].map String.toList],
       Effect.message "Please provide the CSV file path as an argument".toList,
       Effect.exitCode 1] ∧
    scriptTrace ts argv rest' =
      [Effect.writeFile (indianFileName ts)
        [["Domain", "Confidence", "Indicators", "Country_Code", "Shop_ID",
          "Timestamp"].map String.toList],
       Effect.message "Please provide the CSV file path as an argument".toList,
       Effect.exitCode 1] := by
  refine ⟨rfl, rfl, ?_, ?_⟩
  · rw [main2Trace, if_pos hargv]
  · rw [scriptTrace, if_pos hargv]

/-- C10 witness: invoking main2.py / script.py with a bare program name. -/
theorem claim10_header_before_validation_witness :
    main2Trace "20240101_000000".toList ["main2.py".toList] [] =
      [Effect.writeFile (verifypassFileName "20240101_000000".toList)
        [["Domain", "Timestamp", "Status"].map String.toList],
       Effect.message "Please provide the CSV file path as an argument".toList,
       Effect.exitCode 1] :=
  (claim10_header_before_validation "20240101_000000".toList ["main2.py".toList]
    [] [] (by decide)).2.2.1
